import Mathlib

set_option linter.unusedSectionVars false

/-!
Verification of the `chainmap` repository (Rust): a layered key-value
structure `ChainMap<K, V>` holding a `Vec<HashMap<K, V>>`, queried by
scanning layers from index 0 upward.

`HashMap<K, V>` is shallowly embedded as an association list whose keys
are unique (the `HMap.WF` predicate below captures the hash-map key
invariant); its `get`, `insert` and `is_empty` follow the observable
semantics of `std::collections::HashMap`, and iteration order over a
map's entries is the list order.  `ChainMap` operations are translated
clause by clause from `src/lib.rs`.
-/

namespace ChainMapProof

variable {K V : Type} [DecidableEq K]

/-- Association-list model of `std::collections::HashMap<K, V>` (the
`ChainMapType` alias of the source). -/
abbrev HMap (K V : Type) : Type := List (K × V)

/-- `HashMap::get`: the value stored for `k`, if any. -/
def HMap.get (k : K) : HMap K V → Option V
  | [] => none
  | (k', v) :: rest => if k' = k then some v else HMap.get k rest

/-- `HashMap::insert`: returns the previous value for `k` (if any)
together with the updated map; on a hit the stored value is replaced in
place, otherwise the new entry is added. -/
def HMap.insert (k : K) (v : V) : HMap K V → Option V × HMap K V
  | [] => (none, [(k, v)])
  | (k', v') :: rest =>
    if k' = k then (some v', (k', v) :: rest)
    else
      let r := HMap.insert k v rest
      (r.1, (k', v') :: r.2)

/-- `HashMap::is_empty`. -/
def HMap.isEmpty : HMap K V → Bool
  | [] => true
  | _ :: _ => false

/-- The hash-map key invariant: each key occurs at most once. -/
abbrev HMap.WF (m : HMap K V) : Prop := (m.map Prod.fst).Nodup

/-- `ChainMap<K, V>` from `src/lib.rs`: an ordered sequence of maps. -/
structure ChainMap (K V : Type) : Type where
  maps : List (HMap K V)

/-- `ChainMap::get`: scan the maps in order, return the first hit. -/
def ChainMap.getList (k : K) : List (HMap K V) → Option V
  | [] => none
  | m :: rest =>
    let r := HMap.get k m
    if r.isSome then r else ChainMap.getList k rest

/-- `ChainMap::get` on the structure. -/
def ChainMap.get (c : ChainMap K V) (k : K) : Option V :=
  ChainMap.getList k c.maps

/-- `ChainMap::insert`: a no-op returning `none` when there are no maps,
otherwise an insertion into the map at index 0; returns the previous
value together with the updated structure. -/
def ChainMap.insert (c : ChainMap K V) (k : K) (v : V) :
    Option V × ChainMap K V :=
  match c.maps with
  | [] => (none, c)
  | m0 :: rest =>
    let r := HMap.insert k v m0
    (r.1, ⟨r.2 :: rest⟩)

/-- `ChainMap::is_empty`: true when every map in the chain is empty. -/
def ChainMap.isEmpty (c : ChainMap K V) : Bool :=
  c.maps.all HMap.isEmpty

/-- `ChainMap::new`. -/
def ChainMap.new (maps : List (HMap K V)) : ChainMap K V := ⟨maps⟩

/-- `ChainMap::empty`. -/
def ChainMap.emptyChain : ChainMap K V := ChainMap.new []

/-- `ChainMap::add_map`: append a map at the end of the chain. -/
def ChainMap.add_map (c : ChainMap K V) (m : HMap K V) : ChainMap K V :=
  ⟨c.maps ++ [m]⟩

/-- Entry-by-entry insertion of one layer into the accumulator, as done
by the inner loop of `ChainMap::to_map`. -/
def ChainMap.mergeLayer (acc : HMap K V) (m : HMap K V) : HMap K V :=
  m.foldl (fun a p => (HMap.insert p.1 p.2 a).2) acc

/-- `ChainMap::to_map`: fold every layer, in chain order, into one
combined map. -/
def ChainMap.to_map (c : ChainMap K V) : HMap K V :=
  c.maps.foldl ChainMap.mergeLayer []

/-- `ChainMap::parents`: drop the last map of a non-empty chain. -/
def ChainMap.parents (c : ChainMap K V) : Option (ChainMap K V) :=
  if c.maps.length > 0 then
    some ⟨c.maps.take (c.maps.length - 1)⟩
  else
    none

/-- `ChainMap::children`: drop the first map of a non-empty chain. -/
def ChainMap.children (c : ChainMap K V) : Option (ChainMap K V) :=
  if c.maps.length > 0 then
    some ⟨c.maps.drop 1⟩
  else
    none

/-! ### Helper lemmas -/

/-- The previous value reported by `HMap.insert` is exactly what `get`
saw before the call. -/
theorem HMap.insert_fst (k : K) (v : V) (m : HMap K V) :
    (HMap.insert k v m).1 = HMap.get k m := by
  induction m with
  | nil => rfl
  | cons p rest ih =>
    obtain ⟨k', v'⟩ := p
    by_cases hk : k' = k <;> simp [HMap.insert, HMap.get, hk, ih]

/-- After inserting `k`, `get k` sees the new value. -/
theorem HMap.get_insert_self (k : K) (v : V) (m : HMap K V) :
    HMap.get k (HMap.insert k v m).2 = some v := by
  induction m with
  | nil => simp [HMap.insert, HMap.get]
  | cons p rest ih =>
    obtain ⟨k', v'⟩ := p
    by_cases hk : k' = k <;> simp [HMap.insert, HMap.get, hk, ih]

/-- Inserting `k` does not change `get` at any other key. -/
theorem HMap.get_insert_ne (k k' : K) (v : V) (m : HMap K V)
    (hne : k' ≠ k) : HMap.get k' (HMap.insert k v m).2 = HMap.get k' m := by
  induction m with
  | nil => simp [HMap.insert, HMap.get, Ne.symm hne]
  | cons p rest ih =>
    obtain ⟨k0, v0⟩ := p
    by_cases hk : k0 = k
    · subst hk
      simp [HMap.insert, HMap.get, Ne.symm hne]
    · simp [HMap.insert, HMap.get, hk, ih]

/-- A successful `get` means the key occurs in the entry list. -/
theorem HMap.get_isSome_mem (k : K) (m : HMap K V)
    (h : (HMap.get k m).isSome) : k ∈ m.map Prod.fst := by
  induction m with
  | nil => simp [HMap.get] at h
  | cons p rest ih =>
    obtain ⟨k', v'⟩ := p
    by_cases hk : k' = k
    · simp [hk]
    · simp [HMap.get, hk] at h
      simp [ih h]

/-- The branch in the layer scan is an `Option.or`. -/
theorem ite_isSome_or (o s : Option V) :
    (if o.isSome then o else s) = o.or s := by
  cases o <;> rfl

/-- The scan of a cons chain. -/
theorem ChainMap.getList_cons (k : K) (m : HMap K V)
    (rest : List (HMap K V)) :
    ChainMap.getList k (m :: rest) =
      (HMap.get k m).or (ChainMap.getList k rest) := by
  rw [ChainMap.getList, ite_isSome_or]

/-- The scan of a concatenated chain looks at the front part first. -/
theorem ChainMap.getList_append (k : K) (xs ys : List (HMap K V)) :
    ChainMap.getList k (xs ++ ys) =
      (ChainMap.getList k xs).or (ChainMap.getList k ys) := by
  induction xs with
  | nil => simp [ChainMap.getList]
  | cons m rest ih =>
    rw [List.cons_append, ChainMap.getList_cons, ChainMap.getList_cons, ih,
      Option.or_assoc]

/-- If some layer of the chain holds the key, the scan succeeds. -/
theorem ChainMap.getList_isSome (k : K) (maps : List (HMap K V))
    (h : ∃ m ∈ maps, (HMap.get k m).isSome) :
    (ChainMap.getList k maps).isSome := by
  induction maps with
  | nil => simp at h
  | cons m rest ih =>
    rw [ChainMap.getList_cons]
    rcases h with ⟨m', hm', hs⟩
    rcases List.mem_cons.mp hm' with h0 | h0
    · subst h0
      cases ho : HMap.get k m'
      · rw [ho] at hs; simp at hs
      · simp [ho]
    · cases ho : HMap.get k m
      · simpa using ih ⟨m', h0, hs⟩
      · simp [ho]

/-- The scan misses exactly when every layer misses. -/
theorem ChainMap.getList_eq_none_iff (k : K) (maps : List (HMap K V)) :
    ChainMap.getList k maps = none ↔ ∀ m ∈ maps, HMap.get k m = none := by
  induction maps with
  | nil => simp [ChainMap.getList]
  | cons m rest ih =>
    rw [ChainMap.getList_cons]
    cases ho : HMap.get k m <;> simp [Option.or, ho, ih]

/-- The scan returns the hit of the lowest-index layer holding the key. -/
theorem ChainMap.getList_first_hit (k : K) (maps : List (HMap K V)) :
    ∀ i v, i < maps.length → HMap.get k (maps.getD i []) = some v →
      (∀ j, j < i → HMap.get k (maps.getD j []) = none) →
      ChainMap.getList k maps = some v := by
  induction maps with
  | nil => intro i v hi _ _; simp at hi
  | cons m rest ih =>
    intro i v hi hv hj
    rw [ChainMap.getList_cons]
    cases i with
    | zero =>
      simp only [List.getD_cons_zero] at hv
      simp [hv, Option.or]
    | succ i =>
      have h0 : HMap.get k m = none := by
        have := hj 0 (Nat.zero_lt_succ i)
        simpa using this
      rw [h0]
      simp only [Option.or]
      exact ih i v (by simpa using hi) (by simpa using hv)
        (fun j hji => by simpa using hj (j + 1) (Nat.succ_lt_succ hji))

/-- Merging a layer with unique keys into an accumulator: the layer's
entries win, other keys fall through to the accumulator. -/
theorem ChainMap.mergeLayer_get (k : K) (m : HMap K V) (hWF : HMap.WF m) :
    ∀ acc : HMap K V, HMap.get k (ChainMap.mergeLayer acc m) =
      (HMap.get k m).or (HMap.get k acc) := by
  induction m with
  | nil => intro acc; simp [ChainMap.mergeLayer, HMap.get, Option.or]
  | cons p rest ih =>
    intro acc
    obtain ⟨k0, v0⟩ := p
    have hWF' : (k0 :: rest.map Prod.fst).Nodup := hWF
    have hparts := List.nodup_cons.mp hWF'
    have hstep : ChainMap.mergeLayer acc ((k0, v0) :: rest) =
        ChainMap.mergeLayer (HMap.insert k0 v0 acc).2 rest := by
      simp [ChainMap.mergeLayer]
    rw [hstep, ih hparts.2]
    by_cases hk : k0 = k
    · subst hk
      have hnone : HMap.get k0 rest = none := by
        cases ho : HMap.get k0 rest with
        | none => rfl
        | some w =>
          exact absurd (HMap.get_isSome_mem k0 rest (by simp [ho])) hparts.1
      simp [HMap.get, hnone, HMap.get_insert_self, Option.or]
    · simp [HMap.get, hk, HMap.get_insert_ne k0 k v0 acc (Ne.symm hk)]

/-- An empty map is exactly the empty entry list. -/
theorem HMap.isEmpty_iff (m : HMap K V) : HMap.isEmpty m = true ↔ m = [] := by
  cases m <;> simp [HMap.isEmpty]

/-! ### The claims -/

/-- Claim C1: the claim says the lowest-index layer wins in `to_map()`,
so that for the chain `[[(1, 10)], [(1, 20)]]` the flattened map should
hold `10` at key `1`; the code iterates layers from index 0 upward and
lets each later insertion overwrite, so the flattened map holds `20`
while `get 1` (the structure's defining override order) returns `10`. -/
theorem to_map_last_layer_wins :
    HMap.get 1 (ChainMap.new [[(1, 10)], [(1, 20)]] : ChainMap Nat Nat).to_map
        = some 20 ∧
      (ChainMap.new [[(1, 10)], [(1, 20)]] : ChainMap Nat Nat).get 1
        = some 10 := by
  exact ⟨rfl, rfl⟩

/-- Claim C2: `get` returns the value of the lowest-index layer holding
the key, and `none` exactly when no layer (possibly out of zero layers)
holds it. -/
theorem get_first_hit_spec (c : ChainMap K V) (k : K) :
    (c.get k = none ↔ ∀ m ∈ c.maps, HMap.get k m = none) ∧
    (∀ i v, i < c.maps.length →
      HMap.get k (c.maps.getD i []) = some v →
      (∀ j, j < i → HMap.get k (c.maps.getD j []) = none) →
      c.get k = some v) := by
  exact ⟨ChainMap.getList_eq_none_iff k c.maps,
    fun i v hi hv hj => ChainMap.getList_first_hit k c.maps i v hi hv hj⟩

/-- Witness for C2 at a concrete chain: key 2 is absent from layer 0 and
found in layer 1. -/
theorem get_first_hit_spec_witness :
    (ChainMap.new [[((1 : Nat), (10 : Nat))], [(1, 20), (2, 30)]]).get 2
      = some 30 := by
  refine (get_first_hit_spec
    (ChainMap.new [[((1 : Nat), (10 : Nat))], [(1, 20), (2, 30)]]) 2).2
    1 30 (by decide) (by decide) ?_
  intro j hj
  have hj0 : j = 0 := by omega
  subst hj0
  decide

/-- Claim C3: on a non-empty chain, `insert` makes `get` see the new
value and reports the value layer 0 previously held. -/
theorem insert_nonempty_spec (c : ChainMap K V) (k : K) (v : V)
    (h : c.maps ≠ []) :
    (c.insert k v).2.get k = some v ∧
    (c.insert k v).1 = HMap.get k (c.maps.headD []) := by
  obtain ⟨maps⟩ := c
  cases maps with
  | nil => exact absurd rfl h
  | cons m0 rest =>
    constructor
    · show ChainMap.getList k ((HMap.insert k v m0).2 :: rest) = some v
      rw [ChainMap.getList_cons, HMap.get_insert_self]
      rfl
    · exact HMap.insert_fst k v m0

/-- Witness for C3: layer 0 held `5` at key 1; inserting `7` returns
`some 5` and `get` then sees `7`. -/
theorem insert_nonempty_spec_witness :
    ((ChainMap.new [[((1 : Nat), (5 : Nat))]]).insert 1 7).2.get 1 = some 7 ∧
    ((ChainMap.new [[((1 : Nat), (5 : Nat))]]).insert 1 7).1 = some 5 := by
  have h := insert_nonempty_spec (ChainMap.new [[((1 : Nat), (5 : Nat))]])
    1 7 (by decide)
  refine ⟨h.1, ?_⟩
  rw [h.2]
  decide

/-- Claim C4: on a zero-layer chain, `insert` returns `none` and the
structure is unchanged: still empty, and `get` still misses. -/
theorem insert_empty_noop (c : ChainMap K V) (k : K) (v : V)
    (h : c.maps = []) :
    (c.insert k v).1 = none ∧ (c.insert k v).2 = c ∧
    (c.insert k v).2.isEmpty = true ∧ (c.insert k v).2.get k = none := by
  obtain ⟨maps⟩ := c
  have h' : maps = [] := h
  subst h'
  exact ⟨rfl, rfl, rfl, rfl⟩

/-- Witness for C4 at the empty chain. -/
theorem insert_empty_noop_witness :
    ((ChainMap.new ([] : List (HMap Nat Nat))).insert 1 2).1 = none ∧
    ((ChainMap.new ([] : List (HMap Nat Nat))).insert 1 2).2
      = ChainMap.new [] ∧
    ((ChainMap.new ([] : List (HMap Nat Nat))).insert 1 2).2.isEmpty = true ∧
    ((ChainMap.new ([] : List (HMap Nat Nat))).insert 1 2).2.get 1 = none :=
  insert_empty_noop (ChainMap.new []) 1 2 rfl

/-- Claim C5: `parents` of an at-least-one-layer chain is the chain
minus its last layer (so one layer goes to the zero-layer chain), and of
a zero-layer chain is `none`. -/
theorem parents_spec (c : ChainMap K V) :
    (c.maps.length ≥ 1 →
      c.parents = some ⟨c.maps.dropLast⟩ ∧
      c.maps.dropLast.length = c.maps.length - 1) ∧
    (c.maps.length = 0 → c.parents = none) := by
  constructor
  · intro h
    refine ⟨?_, c.maps.length_dropLast⟩
    rw [ChainMap.parents, if_pos (by omega), List.dropLast_eq_take]
  · intro h
    rw [ChainMap.parents, if_neg (by omega)]

/-- Witness for C5: a one-layer chain yields the zero-layer chain. -/
theorem parents_spec_witness :
    (ChainMap.new [[((1 : Nat), (2 : Nat))]]).parents
      = some (ChainMap.new []) :=
  ((parents_spec (ChainMap.new [[((1 : Nat), (2 : Nat))]])).1 (by decide)).1

/-- Claim C6: `children` of an at-least-one-layer chain is the chain
minus its first layer, and of a zero-layer chain is `none`. -/
theorem children_spec (c : ChainMap K V) :
    (c.maps.length ≥ 1 →
      c.children = some ⟨c.maps.tail⟩ ∧
      c.maps.tail.length = c.maps.length - 1) ∧
    (c.maps.length = 0 → c.children = none) := by
  constructor
  · intro h
    refine ⟨?_, c.maps.length_tail⟩
    rw [ChainMap.children, if_pos (by omega), List.drop_one]
  · intro h
    rw [ChainMap.children, if_neg (by omega)]

/-- Witness for C6 at a two-layer chain. -/
theorem children_spec_witness :
    (ChainMap.new [[((1 : Nat), (2 : Nat))], [(3, 4)]]).children
      = some (ChainMap.new [[(3, 4)]]) :=
  ((children_spec
    (ChainMap.new [[((1 : Nat), (2 : Nat))], [(3, 4)]])).1 (by decide)).1

/-- Claim C7: `is_empty` holds exactly when every layer is empty, the
zero-layer chain included. -/
theorem isEmpty_iff_all_empty (c : ChainMap K V) :
    c.isEmpty = true ↔ ∀ m ∈ c.maps, m = ([] : HMap K V) := by
  simp [ChainMap.isEmpty, List.all_eq_true, HMap.isEmpty_iff]

/-- Claim C8: `insert` on a non-empty chain keeps the layer count and
every layer past index 0 untouched, and `add_map` (the only other
mutation) keeps every existing layer untouched. -/
theorem insert_frame (c : ChainMap K V) (k : K) (v : V)
    (h : c.maps ≠ []) :
    (c.insert k v).2.maps.length = c.maps.length ∧
    (c.insert k v).2.maps.tail = c.maps.tail ∧
    ∀ m : HMap K V, (c.add_map m).maps.take c.maps.length = c.maps := by
  obtain ⟨maps⟩ := c
  cases maps with
  | nil => exact absurd rfl h
  | cons m0 rest =>
    exact ⟨rfl, rfl, fun m => List.take_left _ _⟩

/-- Witness for C8 at a two-layer chain. -/
theorem insert_frame_witness :
    ((ChainMap.new [[((1 : Nat), (2 : Nat))], [(3, 4)]]).insert 1 9).2.maps.tail
      = [[(3, 4)]] := by
  have h := insert_frame (ChainMap.new [[((1 : Nat), (2 : Nat))], [(3, 4)]])
    1 9 (by decide)
  exact h.2.1

/-- Claim C9: flattening a single-layer chain reproduces that layer
exactly (same lookup result at every key), given the hash-map key
uniqueness invariant. -/
theorem to_map_single_layer (L : HMap K V) (hWF : HMap.WF L) (k : K) :
    HMap.get k (ChainMap.new [L]).to_map = HMap.get k L := by
  show HMap.get k (ChainMap.mergeLayer [] L) = HMap.get k L
  rw [ChainMap.mergeLayer_get k L hWF []]
  cases HMap.get k L <;> rfl

/-- Witness for C9 at a concrete two-entry layer. -/
theorem to_map_single_layer_witness :
    HMap.get 1 (ChainMap.new [[((1 : Nat), (5 : Nat)), (2, 6)]]).to_map
      = some 5 := by
  rw [to_map_single_layer [((1 : Nat), (5 : Nat)), (2, 6)] (by decide) 1]
  decide

/-- Claim C10: appending a layer with `add_map` never changes a lookup
that already resolves in an existing layer. -/
theorem add_map_preserves_get (c : ChainMap K V) (L : HMap K V) (k : K)
    (h : ∃ m ∈ c.maps, (HMap.get k m).isSome) :
    (c.add_map L).get k = c.get k := by
  show ChainMap.getList k (c.maps ++ [L]) = ChainMap.getList k c.maps
  rw [ChainMap.getList_append]
  have hs := ChainMap.getList_isSome k c.maps h
  cases ho : ChainMap.getList k c.maps with
  | none => rw [ho] at hs; simp at hs
  | some v => rfl

/-- Witness for C10: key 1 resolves in the existing layer both before
and after appending a layer that also holds key 1. -/
theorem add_map_preserves_get_witness :
    ((ChainMap.new [[((1 : Nat), (5 : Nat))]]).add_map [(1, 9)]).get 1
      = some 5 := by
  rw [add_map_preserves_get (ChainMap.new [[((1 : Nat), (5 : Nat))]])
    [(1, 9)] 1 (by decide)]
  decide

end ChainMapProof
